import Mathlib

/-!
Shallow embedding of the calendar event-windowing engine and notification
scheduling logic of diamondburned/discord-ical-reminder (Go).

Timestamps (Go `time.Time`) are modelled as `Int` instants (nanoseconds since
the epoch, the value `UnixNano` compares by); durations (`time.Duration`) as
`Int`. Go's `t.After(s)` / `t.Before(s)` are strict comparisons on instants.
Time-zone locations only affect wall-clock presentation of instants and the
occurrence expander (an external collaborator), so they do not appear in the
embedding; the precondition that both window bounds share one location is
assumed throughout (the Go code panics otherwise).
-/

/-- Reminder mirrors Go `calendar.Reminder`: an action tag plus the remind-at
instant. -/
structure Reminder where
  action : String
  remindAt : Int
deriving DecidableEq, Repr

/-- Event mirrors Go `calendar.Event`. -/
structure Event where
  startsAt : Int
  endsAt : Int
  summary : String
  location : String
  description : String
  status : String
  reminders : List Reminder
deriving DecidableEq, Repr

/-- mapSlice mirrors the Go generic helper `mapSlice`. -/
def mapSlice (slice : List α) (f : α → β) : List β :=
  slice.map f

/-- timeIncludes mirrors Go `timeIncludes`: true iff `t` lies strictly inside
the open interval `(start, endT)` (`t.After(start) && t.Before(end)`). -/
def timeIncludes (start endT t : Int) : Bool :=
  decide (start < t) && decide (t < endT)

/-- Within mirrors Go `Event.Within`: the start lies strictly inside the open
window, or (when `includeReminders`) some reminder's remind-at does. -/
def Event.Within (e : Event) (start endT : Int) (includeReminders : Bool) : Bool :=
  timeIncludes start endT e.startsAt ||
    (includeReminders && e.reminders.any (fun r => timeIncludes start endT r.remindAt))

/-- ReminderTimes mirrors Go `ReminderTimes`. -/
def ReminderTimes (reminders : List Reminder) : List Int :=
  mapSlice reminders (fun r => r.remindAt)

/-- CalculateReminderTimes mirrors Go `CalculateReminderTimes`: each duration is
subtracted from the start instant. -/
def CalculateReminderTimes (startsAt : Int) (durations : List Int) : List Int :=
  mapSlice durations (fun d => startsAt - d)

/-- NewReminders mirrors Go `NewReminders`. -/
def NewReminders (times : List Int) (action : String) : List Reminder :=
  mapSlice times (fun t => { remindAt := t, action := action })

/-- NewRemindersFromDuration mirrors Go `NewRemindersFromDuration`. -/
def NewRemindersFromDuration (startsAt : Int) (durations : List Int) (action : String) :
    List Reminder :=
  NewReminders (CalculateReminderTimes startsAt durations) action

/-- EarliestReminder mirrors Go `EarliestReminder`: the fold keeps the reminder
with the smallest remind-at; the empty list yields the zero Reminder (zero
action string, zero time). -/
def EarliestReminder (reminders : List Reminder) : Reminder :=
  match reminders with
  | [] => { action := "", remindAt := 0 }
  | first :: rest =>
    rest.foldl (fun latest r => if r.remindAt < latest.remindAt then r else latest) first

/-- EventsOpts mirrors Go `calendar.EventsOpts`. `parseReminder` models the
optional `ParseReminder` callback (nil pointer = `none`); `defaultReminders`
are lead-time durations. -/
structure EventsOpts where
  parseReminder : Option (Event → List Reminder)
  defaultReminders : List Int
  defaultReminderAction : String
  includeReminders : Bool
  excludeCancelled : Bool

/-- EventReminders mirrors Go `EventsOpts.EventReminders`: default reminders
first (action falling back to DISPLAY), then the custom parser's output. -/
def EventsOpts.EventReminders (o : EventsOpts) (e : Event) : List Reminder :=
  let reminderAction := if o.defaultReminderAction = "" then "DISPLAY" else o.defaultReminderAction
  let reminders := NewRemindersFromDuration e.startsAt o.defaultReminders reminderAction
  match o.parseReminder with
  | some f => reminders ++ f e
  | none => reminders

/-- SourceEvent models one `VEVENT` component of a parsed iCalendar document
as `ICSCalendar.EventsBetween` observes it: the results of `Status()`,
`DateTimeStart` / `DateTimeEnd` (`none` models a parse error, which makes the
loop skip the component), the text properties, and `RecurrenceSet` (`none` =
no recurrence rules; `some occs` = the full, ordered set of occurrence start
instants that the black-box occurrence expander can enumerate). -/
structure SourceEvent where
  status : String
  dtstart : Option Int
  dtend : Option Int
  summary : String
  location : String
  description : String
  rrule : Option (List Int)
deriving DecidableEq, Repr

/-- ICSCalendar models Go `calendar.ICSCalendar`: the list of `VEVENT` children
of the wrapped immutable document (non-event components are skipped by the
query loop and carry no other observable data, so they are omitted). -/
abbrev ICSCalendar := List SourceEvent

/-- rruleBetween models `rrule.Set.Between(after, before, inc)` of the external
occurrence expander: the occurrences whose start lies in `[lo, hi]` (inclusive
on both ends when `inc`), in enumeration order. -/
def rruleBetween (occurrences : List Int) (lo hi : Int) (inc : Bool) : List Int :=
  if inc then occurrences.filter (fun t => decide (lo ≤ t) && decide (t ≤ hi))
  else occurrences.filter (fun t => decide (lo < t) && decide (t < hi))

/-- createEvent mirrors Go `ICSCalendar.createEvent`: build the Event from the
component's properties, then attach the materialized reminders (the reminder
parser observes the event with an empty reminder list, as in the source). -/
def createEvent (src : SourceEvent) (start endT : Int) (opts : EventsOpts) : Event :=
  let e : Event := {
    startsAt := start
    endsAt := endT
    summary := src.summary
    location := src.location
    description := src.description
    status := src.status
    reminders := []
  }
  { e with reminders := opts.EventReminders e }

/-- insertByKey is the insertion step of the sort used to model Go
`slices.SortFunc` with an integer sort key. -/
def insertByKey (key : α → Int) (x : α) : List α → List α
  | [] => [x]
  | y :: ys => if key x ≤ key y then x :: y :: ys else y :: insertByKey key x ys

/-- sortByKey models Go `slices.SortFunc` with comparator
`cmp.Compare (key a) (key b)`: a sort of the list by the integer key. -/
def sortByKey (key : α → Int) : List α → List α
  | [] => []
  | x :: xs => insertByKey key x (sortByKey key xs)

/-- chooseEvents is the body of the per-component loop of Go
`ICSCalendar.EventsBetween` (src lines 113-169): the events this one source
component contributes to the result, before the final sort. -/
def chooseEvents (src : SourceEvent) (start endT : Int) (opts : EventsOpts) : List Event :=
  if opts.excludeCancelled && src.status == "CANCELLED" then []
  else
    match src.dtstart, src.dtend with
    | some dtstart, some dtend =>
      let event := createEvent src dtstart dtend opts
      match src.rrule with
      | some occurrences =>
        let duration := dtend - dtstart
        let rend :=
          if opts.includeReminders then
            endT + (event.startsAt - (EarliestReminder event.reminders).remindAt)
          else endT
        (rruleBetween occurrences start rend true).map
          (fun startsAt => createEvent src startsAt (startsAt + duration) opts)
      | none =>
        if event.Within start endT opts.includeReminders then [event] else []
    | _, _ => []

/-- EventsBetween mirrors Go `ICSCalendar.EventsBetween`: concatenate every
component's chosen events in document order, then sort ascending by start
time (`slices.SortFunc(chosenEvents, CompareEvent)`). -/
def EventsBetween (c : ICSCalendar) (start endT : Int) (opts : EventsOpts) : List Event :=
  sortByKey (fun e => e.startsAt)
    ((c.map (fun src => chooseEvents src start endT opts)).flatten)

/-- ICalDoc models a parsed `ical.Calendar` document as the Live-Calendar
refresh logic observes it: `bytes` is its canonical re-serialization and
`encodeOk` models whether `ical.Encoder.Encode` succeeds on it. -/
structure ICalDoc where
  bytes : List Nat
  encodeOk : Bool
deriving DecidableEq, Repr

/-- encodeDoc models `ical.NewEncoder(&buf).Encode(doc)`: the serialized bytes,
or `none` on an encoding error. -/
def encodeDoc (d : ICalDoc) : Option (List Nat) :=
  if d.encodeOk then some d.bytes else none

/-- calEquals mirrors Go `ICSCalendar.Equals` as called with the currently
published snapshot (`none` models the nil `atomic.Pointer` before any publish)
and a freshly parsed document: pointer equality holds only in the both-nil
case here (the fresh parse is a distinct pointer), a nil side is unequal to a
non-nil side, and otherwise the two canonical serializations are compared,
any encoding error counting as unequal. -/
def calEquals (c x : Option ICalDoc) : Bool :=
  match c, x with
  | none, none => true
  | none, some _ => false
  | some _, none => false
  | some a, some b =>
    match encodeDoc a, encodeDoc b with
    | some ba, some bb => ba == bb
    | _, _ => false

/-- RefreshInput models the effectful steps of Go `OnlineICSCalendar.Refresh`:
`fetched` is the combined outcome of request creation, the HTTP round-trip,
the status check and `ParseICS` (an error short-circuits with that error);
`casSucceeds` models whether this call's `CompareAndSwap` of the published
snapshot takes effect (false = a concurrent refresh replaced it first). -/
structure RefreshInput where
  fetched : Except String ICalDoc
  casSucceeds : Bool

/-- Refresh mirrors Go `OnlineICSCalendar.Refresh`, written as a pure state
transition on the published snapshot: it returns the snapshot as this call
leaves it, the `changed` report, and the error report. -/
def Refresh (published : Option ICalDoc) (inp : RefreshInput) :
    Option ICalDoc × Bool × Option String :=
  match inp.fetched with
  | .error e => (published, false, some e)
  | .ok newCalendar =>
    if calEquals published (some newCalendar) then (published, false, none)
    else if inp.casSucceeds then (some newCalendar, true, none)
    else (published, false, none)

/-- Notification mirrors Go `calendar.Notification` (the owning Calendar is an
`ICSCalendar` document in this embedding). -/
structure Notification where
  calendar : ICSCalendar
  event : Event
  remindedAt : Int
deriving DecidableEq, Repr

/-- NotifierState mirrors Go `calendar.NotifierState`; the
`map[Calendar]struct{}` set is modelled as a duplicate-free list. -/
structure NotifierState where
  calendars : List ICSCalendar

/-- AddCalendar mirrors Go `NotifierState.AddCalendar` (set insertion). -/
def NotifierState.AddCalendar (s : NotifierState) (cal : ICSCalendar) : NotifierState :=
  if cal ∈ s.calendars then s else { calendars := cal :: s.calendars }

/-- RemoveCalendar mirrors Go `NotifierState.RemoveCalendar` (set deletion). -/
def NotifierState.RemoveCalendar (s : NotifierState) (cal : ICSCalendar) : NotifierState :=
  { calendars := s.calendars.filter (fun c => c ≠ cal) }

/-- NotifierOpts mirrors Go `calendar.NotifierOpts`. The `Location` field only
converts instants between wall-clock zones and is not observable on `Int`
instants, so it is omitted. -/
structure NotifierOpts where
  eventsOpts : EventsOpts
  skipPastNotifications : Bool

/-- Notifier mirrors Go `calendar.Notifier`: the options, the guarded state,
and `doneClosed` modelling whether the `done` channel has been closed (which
happens when `Notify` returns). -/
structure Notifier where
  opts : NotifierOpts
  state : NotifierState
  doneClosed : Bool

/-- NewNotifier mirrors Go `NewNotifier`: reminders are always included
(`opts.IncludeReminders = true`), the state starts empty, and the `done`
channel starts open. -/
def NewNotifier (opts : NotifierOpts) : Notifier :=
  { opts := { opts with eventsOpts := { opts.eventsOpts with includeReminders := true } }
    state := { calendars := [] }
    doneClosed := false }

/-- Update mirrors Go `Notifier.Update`: apply the mutator to the guarded
state (the coalesced invalidation signal it then posts carries no data and is
not modelled). -/
def Notifier.Update (n : Notifier) (fn : NotifierState → NotifierState) : Notifier :=
  { n with state := fn n.state }

/-- notifyingEvent mirrors the unexported Go struct `notifyingEvent`. -/
structure notifyingEvent where
  event : Event
  calendar : ICSCalendar
deriving DecidableEq, Repr

/-- notifyingEvents mirrors Go `Notifier.notifyingEvents`: for every tracked
calendar, query the window, keep only events with at least one reminder, sort
each kept event's reminders descending by remind-at (the comparator is
`-1 * CompareTime`), and finally sort the combined list by event start. -/
def Notifier.notifyingEvents (n : Notifier) (start endT : Int) : List notifyingEvent :=
  sortByKey (fun ne => ne.event.startsAt)
    ((n.state.calendars.map (fun cal =>
      ((EventsBetween cal start endT n.opts.eventsOpts).filter
          (fun ev => !ev.reminders.isEmpty)).map
        (fun ev =>
          { event := { ev with reminders := sortByKey (fun r => -r.remindAt) ev.reminders }
            calendar := cal }))).flatten)

/-- notifications mirrors Go `Notifier.notifications`: one Notification per
reminder of every notifying event, sorted ascending by remind-at. -/
def Notifier.notifications (n : Notifier) (start endT : Int) : List Notification :=
  sortByKey (fun x => x.remindedAt)
    (((n.notifyingEvents start endT).map (fun ne =>
      ne.event.reminders.map (fun reminder =>
        { calendar := ne.calendar, event := ne.event, remindedAt := reminder.remindAt }))).flatten)

/-- shouldSkip mirrors Go `Notifier.shouldSkip`: compare now against the
notification's remind-at when skipping past notifications, otherwise against
the event's start (`startsAt.Before(now)` is a strict comparison). -/
def Notifier.shouldSkip (n : Notifier) (notification : Notification) (now : Int) : Bool :=
  let startsAt :=
    if n.opts.skipPastNotifications then notification.remindedAt
    else notification.event.startsAt
  decide (startsAt < now)

/-- purgeLate is the pruning loop at the head of Go `queueNext`
(`for len(notifications) > 0 && n.shouldSkip(notifications[0], now)`): drop
queue heads while `shouldSkip` holds. -/
def purgeLate (n : Notifier) (notifications : List Notification) (now : Int) :
    List Notification :=
  match notifications with
  | [] => []
  | x :: xs => if n.shouldSkip x now then purgeLate n xs now else x :: xs

/-- queueNext mirrors Go `queueNext` as a pure function: the queue after
pruning, together with the countdown duration `head.RemindedAt.Sub(now)` the
timer is armed with (`none` = queue empty, no timer armed). A timer armed
with a non-positive duration fires immediately. -/
def queueNext (n : Notifier) (notifications : List Notification) (now : Int) :
    List Notification × Option Int :=
  let remaining := purgeLate n notifications now
  match remaining with
  | [] => (remaining, none)
  | next :: _ => (remaining, some (next.remindedAt - now))

/-- NotifyOutcome models how one invocation of Go `Notifier.Notify` ends: a
runtime panic, or a normal return with the loop's error result. -/
inductive NotifyOutcome where
  | panicked (msg : String)
  | returned (err : Option String)
deriving DecidableEq, Repr

/-- Notify models the entry check of Go `Notifier.Notify` (src lines 368-373)
and its `defer close(n.done)`: if the `done` channel is already closed the
call panics with "notifier cannot be reused"; otherwise the loop runs,
eventually returns `loopResult` (its context error), and closing `done` is
recorded in the returned Notifier. -/
def Notifier.Notify (n : Notifier) (loopResult : Option String) : NotifyOutcome × Notifier :=
  if n.doneClosed then (.panicked "notifier cannot be reused", n)
  else (.returned loopResult, { n with doneClosed := true })

/-- optsBase is a concrete options instance (no custom parser, no default
lead times, reminders included, cancelled events kept) used by the concrete
evaluations below. -/
def optsBase : EventsOpts :=
  { parseReminder := none
    defaultReminders := []
    defaultReminderAction := ""
    includeReminders := true
    excludeCancelled := false }

/-- optsTwoDefaults configures two default lead times of 20 and 10. -/
def optsTwoDefaults : EventsOpts :=
  { parseReminder := none
    defaultReminders := [20, 10]
    defaultReminderAction := ""
    includeReminders := true
    excludeCancelled := false }

/-- srcPlain is a non-recurring source event starting at 5 and ending at 8. -/
def srcPlain : SourceEvent :=
  { status := "", dtstart := some 5, dtend := some 8, summary := "s", location := ""
    description := "", rrule := none }

/-- srcRecurring is a recurring source event (first occurrence 5 to 8) whose
recurrence set starts at 3, 7 and 100. -/
def srcRecurring : SourceEvent :=
  { status := "", dtstart := some 5, dtend := some 8, summary := "r", location := ""
    description := "", rrule := some [3, 7, 100] }

/-- srcReminded is a non-recurring source event from 100 to 200; with
`optsTwoDefaults` it carries reminders at 80 and 90, in that ascending order. -/
def srcReminded : SourceEvent :=
  { status := "", dtstart := some 100, dtend := some 200, summary := "e", location := ""
    description := "", rrule := none }

/-- exNotifierSkip is a notifier with the skip-past-notifications flag on. -/
def exNotifierSkip : Notifier :=
  { opts := { eventsOpts := optsBase, skipPastNotifications := true }
    state := { calendars := [] }
    doneClosed := false }

/-- exNotifierNoSkip is a notifier with the skip-past-notifications flag off. -/
def exNotifierNoSkip : Notifier :=
  { opts := { eventsOpts := optsBase, skipPastNotifications := false }
    state := { calendars := [] }
    doneClosed := false }

/-- exNotifierReminded tracks one calendar holding `srcReminded` and queries it
with `optsTwoDefaults`. -/
def exNotifierReminded : Notifier :=
  { opts := { eventsOpts := optsTwoDefaults, skipPastNotifications := false }
    state := { calendars := [[srcReminded]] }
    doneClosed := false }

/-- exEvent is an event starting at 10 with no reminders. -/
def exEvent : Event :=
  { startsAt := 10, endsAt := 20, summary := "", location := "", description := ""
    status := "", reminders := [] }

/-- exNotification reminds at 5 about `exEvent` (which starts at 10). -/
def exNotification : Notification :=
  { calendar := [], event := exEvent, remindedAt := 5 }

/-- exNotifyingEvent is the notifying event `exNotifierReminded` derives from
`srcReminded` over the window `(0, 1000)`. -/
def exNotifyingEvent : notifyingEvent :=
  { event := { startsAt := 100, endsAt := 200, summary := "e", location := ""
               description := "", status := "", reminders := [⟨"DISPLAY", 90⟩, ⟨"DISPLAY", 80⟩] }
    calendar := [srcReminded] }

/-- exDocA serializes to the bytes `[1, 2]`. -/
def exDocA : ICalDoc := { bytes := [1, 2], encodeOk := true }

/-- exDocB is a distinct parse that serializes to the same bytes as `exDocA`. -/
def exDocB : ICalDoc := { bytes := [1, 2], encodeOk := true }

/-- exDocC serializes to the bytes `[3]`. -/
def exDocC : ICalDoc := { bytes := [3], encodeOk := true }

/-- exRefreshEq is a refresh whose fetch parses `exDocB` and whose swap would
take effect. -/
def exRefreshEq : RefreshInput := { fetched := .ok exDocB, casSucceeds := true }

/-- exRefreshFresh is a refresh whose fetch parses `exDocC` and whose swap
takes effect. -/
def exRefreshFresh : RefreshInput := { fetched := .ok exDocC, casSucceeds := true }

/-- notifierTracking builds a notifier by `NewNotifier` followed by one
`Update` that adds every calendar of `cals` to the tracked set, the way the
program's startup wires its calendars into the notifier. -/
def notifierTracking (o : NotifierOpts) (cals : List ICSCalendar) : Notifier :=
  Notifier.Update (NewNotifier o) (fun st => cals.foldl NotifierState.AddCalendar st)

theorem insertByKey_perm (key : α → Int) (x : α) (l : List α) :
    List.Perm (insertByKey key x l) (x :: l) := by
  induction l with
  | nil => exact List.Perm.refl _
  | cons y ys ih =>
    rw [insertByKey]
    by_cases h : key x ≤ key y
    · rw [if_pos h]
    · rw [if_neg h]
      exact (ih.cons y).trans (List.Perm.swap x y ys)

theorem sortByKey_perm (key : α → Int) (l : List α) :
    List.Perm (sortByKey key l) l := by
  induction l with
  | nil => exact List.Perm.refl _
  | cons x xs ih =>
    rw [sortByKey]
    exact (insertByKey_perm key x (sortByKey key xs)).trans (ih.cons x)

theorem mem_sortByKey (key : α → Int) (l : List α) (a : α) :
    a ∈ sortByKey key l ↔ a ∈ l :=
  (sortByKey_perm key l).mem_iff

theorem insertByKey_sorted (key : α → Int) (x : α) (l : List α)
    (h : l.Pairwise (fun a b => key a ≤ key b)) :
    (insertByKey key x l).Pairwise (fun a b => key a ≤ key b) := by
  induction l with
  | nil => simp [insertByKey]
  | cons y ys ih =>
    rw [List.pairwise_cons] at h
    obtain ⟨hy, hys⟩ := h
    rw [insertByKey]
    by_cases hx : key x ≤ key y
    · rw [if_pos hx, List.pairwise_cons]
      refine ⟨?_, List.pairwise_cons.mpr ⟨hy, hys⟩⟩
      intro z hz
      rcases List.mem_cons.mp hz with rfl | hz
      · exact hx
      · exact le_trans hx (hy z hz)
    · rw [if_neg hx, List.pairwise_cons]
      refine ⟨?_, ih hys⟩
      intro z hz
      rcases List.mem_cons.mp ((insertByKey_perm key x ys).mem_iff.mp hz) with rfl | hz2
      · omega
      · exact hy z hz2

theorem sortByKey_sorted (key : α → Int) (l : List α) :
    (sortByKey key l).Pairwise (fun a b => key a ≤ key b) := by
  induction l with
  | nil => simp [sortByKey]
  | cons x xs ih => exact insertByKey_sorted key x (sortByKey key xs) ih

theorem earliestFold_mem (l : List Reminder) (acc : Reminder) :
    l.foldl (fun latest r => if r.remindAt < latest.remindAt then r else latest) acc = acc ∨
    l.foldl (fun latest r => if r.remindAt < latest.remindAt then r else latest) acc ∈ l := by
  induction l generalizing acc with
  | nil => exact Or.inl rfl
  | cons r rs ih =>
    rw [List.foldl_cons]
    rcases ih (if r.remindAt < acc.remindAt then r else acc) with h | h
    · rw [h]
      by_cases hc : r.remindAt < acc.remindAt
      · rw [if_pos hc]; exact Or.inr (List.mem_cons_self r rs)
      · rw [if_neg hc]; exact Or.inl rfl
    · exact Or.inr (List.mem_cons_of_mem r h)

theorem earliestFold_le (l : List Reminder) (acc : Reminder) :
    (l.foldl (fun latest r => if r.remindAt < latest.remindAt then r else latest) acc).remindAt ≤
        acc.remindAt ∧
    ∀ x ∈ l,
      (l.foldl (fun latest r => if r.remindAt < latest.remindAt then r else latest) acc).remindAt ≤
        x.remindAt := by
  induction l generalizing acc with
  | nil => exact ⟨le_refl _, by simp⟩
  | cons r rs ih =>
    rw [List.foldl_cons]
    obtain ⟨h1, h2⟩ := ih (if r.remindAt < acc.remindAt then r else acc)
    constructor
    · refine le_trans h1 ?_
      by_cases hc : r.remindAt < acc.remindAt
      · rw [if_pos hc]; omega
      · rw [if_neg hc]
    · intro x hx
      rcases List.mem_cons.mp hx with rfl | hx
      · refine le_trans h1 ?_
        by_cases hc : x.remindAt < acc.remindAt
        · rw [if_pos hc]
        · rw [if_neg hc]; omega
      · exact h2 x hx

theorem within_eq_true_iff (e : Event) (start endT : Int) (inc : Bool) :
    e.Within start endT inc = true ↔
      ((start < e.startsAt ∧ e.startsAt < endT) ∨
        (inc = true ∧ ∃ r ∈ e.reminders, start < r.remindAt ∧ r.remindAt < endT)) := by
  simp [Event.Within, timeIncludes, List.any_eq_true, Bool.or_eq_true, Bool.and_eq_true,
    decide_eq_true_iff]

theorem mem_EventsBetween (c : ICSCalendar) (start endT : Int) (opts : EventsOpts) (e : Event) :
    e ∈ EventsBetween c start endT opts ↔
      ∃ src ∈ c, e ∈ chooseEvents src start endT opts := by
  rw [EventsBetween, mem_sortByKey]
  simp only [List.mem_flatten, List.mem_map]
  constructor
  · rintro ⟨l, ⟨src, hsrc, rfl⟩, hel⟩
    exact ⟨src, hsrc, hel⟩
  · rintro ⟨src, hsrc, hel⟩
    exact ⟨chooseEvents src start endT opts, ⟨src, hsrc, rfl⟩, hel⟩

theorem createEvent_startsAt (src : SourceEvent) (start endT : Int) (opts : EventsOpts) :
    (createEvent src start endT opts).startsAt = start := rfl

theorem createEvent_endsAt (src : SourceEvent) (start endT : Int) (opts : EventsOpts) :
    (createEvent src start endT opts).endsAt = endT := rfl

theorem excludeCancelled_guard_false (opts : EventsOpts) (src : SourceEvent)
    (hnc : ¬(opts.excludeCancelled = true ∧ src.status = "CANCELLED")) :
    (opts.excludeCancelled && (src.status == "CANCELLED")) = false := by
  cases hb : opts.excludeCancelled
  · rfl
  · simp only [Bool.true_and]
    exact beq_eq_false_iff_ne.mpr (fun hs => hnc ⟨hb, hs⟩)

/-- C6: the materialized reminder list is exactly one Reminder per configured
default lead-time duration, at remind-at = event start minus that duration,
tagged with the configured default action (falling back to DISPLAY when it is
unset), followed by the custom extractor's reminders in the extractor's
order, with no de-duplication. -/
theorem eventReminders_defaults_then_custom (o : EventsOpts) (e : Event) :
    o.EventReminders e =
      (o.defaultReminders.map (fun d =>
        { action := if o.defaultReminderAction = "" then "DISPLAY" else o.defaultReminderAction
          remindAt := e.startsAt - d })) ++
      (match o.parseReminder with
       | some f => f e
       | none => []) := by
  cases hp : o.parseReminder with
  | none =>
    simp [EventsOpts.EventReminders, hp, NewRemindersFromDuration, NewReminders,
      CalculateReminderTimes, mapSlice, List.map_map, Function.comp]
  | some f =>
    simp [EventsOpts.EventReminders, hp, NewRemindersFromDuration, NewReminders,
      CalculateReminderTimes, mapSlice, List.map_map, Function.comp]

/-- C7: on a non-empty list `EarliestReminder` returns an element of the list
whose remind-at is the minimum over the list; on the empty list it returns
the zero-valued sentinel Reminder (empty action, zero time). -/
theorem earliestReminder_min (rs : List Reminder) (h : rs ≠ []) :
    (EarliestReminder rs ∈ rs ∧ ∀ r ∈ rs, (EarliestReminder rs).remindAt ≤ r.remindAt) ∧
    EarliestReminder [] = { action := "", remindAt := 0 } := by
  refine ⟨?_, rfl⟩
  match rs, h with
  | first :: rest, _ =>
    simp only [EarliestReminder]
    constructor
    · rcases earliestFold_mem rest first with h1 | h1
      · rw [h1]; exact List.mem_cons_self first rest
      · exact List.mem_cons_of_mem first h1
    · intro r hr
      obtain ⟨h1, h2⟩ := earliestFold_le rest first
      rcases List.mem_cons.mp hr with rfl | hr
      · exact h1
      · exact h2 r hr

theorem earliestReminder_min_witness :
    EarliestReminder [⟨"A", 5⟩, ⟨"B", 3⟩] ∈ ([⟨"A", 5⟩, ⟨"B", 3⟩] : List Reminder) ∧
    (EarliestReminder [⟨"A", 5⟩, ⟨"B", 3⟩]).remindAt ≤ (⟨"A", 5⟩ : Reminder).remindAt :=
  ⟨(earliestReminder_min [⟨"A", 5⟩, ⟨"B", 3⟩] (by decide)).1.1,
   (earliestReminder_min [⟨"A", 5⟩, ⟨"B", 3⟩] (by decide)).1.2 ⟨"A", 5⟩ (by decide)⟩

/-- C9: starting the scheduling loop twice is a fatal misuse: the first
invocation of Notify on a fresh Notifier returns the loop's result, and a
second invocation on the notifier it leaves behind panics with "notifier
cannot be reused" instead of returning. -/
theorem notify_single_use (o : NotifierOpts) (r1 r2 : Option String) :
    (Notifier.Notify (NewNotifier o) r1).1 = NotifyOutcome.returned r1 ∧
    (Notifier.Notify ((Notifier.Notify (NewNotifier o) r1).2) r2).1 =
      NotifyOutcome.panicked "notifier cannot be reused" :=
  ⟨rfl, rfl⟩

/-- C5: Refresh reports changed = false when the fetched document serializes
to the same bytes as the published snapshot; on fetch or parse failure it
returns the error leaving the snapshot unchanged; and it reports changed =
true only when this call's compare-and-swap takes effect (losing the race
reports changed = false). -/
theorem refresh_change_reporting (published : Option ICalDoc) (inp : RefreshInput) :
    (∀ d old b, inp.fetched = .ok d → published = some old →
        encodeDoc old = some b → encodeDoc d = some b →
        Refresh published inp = (published, false, none)) ∧
    (∀ e, inp.fetched = .error e → Refresh published inp = (published, false, some e)) ∧
    ((Refresh published inp).2.1 = true →
      inp.casSucceeds = true ∧
        ∃ d, inp.fetched = .ok d ∧ calEquals published (some d) = false ∧
          Refresh published inp = (some d, true, none)) := by
  refine ⟨?_, ?_, ?_⟩
  · rintro d old b hf rfl h1 h2
    have heq : calEquals (some old) (some d) = true := by
      simp only [calEquals, h1, h2]
      simp
    simp only [Refresh, hf, heq, if_true]
  · intro e hf
    simp only [Refresh, hf]
  · intro hc
    rcases hf : inp.fetched with e | d
    · simp only [Refresh, hf] at hc
      exact Bool.noConfusion hc
    · by_cases heq : calEquals published (some d) = true
      · simp only [Refresh, hf, heq, if_true] at hc
        exact Bool.noConfusion hc
      · cases hcas : inp.casSucceeds
        · simp only [Refresh, hf, hcas] at hc
          rw [if_neg heq] at hc
          exact Bool.noConfusion hc
        · refine ⟨rfl, d, rfl, Bool.not_eq_true _ ▸ heq, ?_⟩
          simp only [Refresh, hf, hcas]
          rw [if_neg heq]
          simp

theorem refresh_change_reporting_witness :
    Refresh (some exDocA) exRefreshEq = (some exDocA, false, none) :=
  (refresh_change_reporting (some exDocA) exRefreshEq).1 exDocB exDocA [1, 2] rfl rfl rfl rfl

/-- C10: on a Live Calendar with no published snapshot, a Refresh whose fetch
and parse succeed (and whose swap is uncontended, as the first refresh of a
fresh calendar is) publishes the fetched document and reports changed = true;
the equality check treats the nil snapshot as unequal to every document. -/
theorem refresh_first_publish (inp : RefreshInput) (d : ICalDoc) :
    (inp.fetched = .ok d → inp.casSucceeds = true →
      Refresh none inp = (some d, true, none)) ∧
    ∀ x : ICalDoc, calEquals none (some x) = false := by
  constructor
  · intro hf hcas
    have heq : calEquals none (some d) = false := rfl
    simp only [Refresh, hf, heq, hcas]
    simp
  · intro x; rfl

theorem refresh_first_publish_witness :
    Refresh none exRefreshFresh = (some exDocC, true, none) ∧
    calEquals none (some exDocA) = false :=
  ⟨(refresh_first_publish exRefreshFresh exDocC).1 rfl rfl,
   (refresh_first_publish exRefreshFresh exDocC).2 exDocA⟩

/-- C3 counterexample: with skip-past-notifications enabled, a queue head
whose relevant timestamp (its remind-at, here 5) is at now (also 5) — "at or
before now" in the claim's words — is NOT dropped by the re-arm pruning loop:
`shouldSkip` compares strictly, so the claim's "at or before" is false at
this input. -/
theorem queueHead_at_now_not_dropped :
    exNotifierSkip.opts.skipPastNotifications = true ∧
    exNotification.remindedAt ≤ 5 ∧
    Notifier.shouldSkip exNotifierSkip exNotification 5 = false ∧
    purgeLate exNotifierSkip [exNotification] 5 = [exNotification] := by
  decide

/-- C3 (amended): during re-arm the Notifier drops the queue head while its
relevant timestamp is STRICTLY BEFORE now — remind-at when
SkipPastNotifications is enabled, the Event's start otherwise — and with the
flag disabled a Notification whose remind-at has passed but whose Event has
not started is kept and armed with a non-positive countdown, so it is
delivered immediately rather than dropped. -/
theorem rearm_drops_strictly_past (n : Notifier) (notifs : List Notification) (now : Int) :
    purgeLate n notifs now = notifs.dropWhile (fun x => n.shouldSkip x now) ∧
    (∀ x : Notification, n.shouldSkip x now = true ↔
      (if n.opts.skipPastNotifications then x.remindedAt else x.event.startsAt) < now) ∧
    (∀ x xs, n.opts.skipPastNotifications = false →
      x.remindedAt < now → now ≤ x.event.startsAt →
      queueNext n (x :: xs) now = (x :: xs, some (x.remindedAt - now)) ∧
        x.remindedAt - now ≤ 0) := by
  refine ⟨?_, ?_, ?_⟩
  · induction notifs with
    | nil => rfl
    | cons x xs ih =>
      rw [purgeLate, List.dropWhile_cons]
      by_cases h : n.shouldSkip x now = true
      · simp only [h, if_true, ih]
      · simp only [Bool.not_eq_true] at h
        simp only [h, Bool.false_eq_true, if_false]
  · intro x
    simp only [Notifier.shouldSkip]
    by_cases hb : n.opts.skipPastNotifications <;> simp [hb]
  · intro x xs hflag hrem hstart
    have hskip : n.shouldSkip x now = false := by
      simp only [Notifier.shouldSkip, hflag, Bool.false_eq_true, if_false]
      simp only [decide_eq_false_iff_not]
      omega
    have hpurge : purgeLate n (x :: xs) now = x :: xs := by
      rw [purgeLate]
      simp only [hskip, Bool.false_eq_true, if_false]
    refine ⟨?_, by omega⟩
    simp only [queueNext, hpurge]

theorem rearm_no_skip_immediate_witness :
    queueNext exNotifierNoSkip [exNotification] 7 =
      ([exNotification], some (exNotification.remindedAt - 7)) ∧
    exNotification.remindedAt - 7 ≤ 0 :=
  (rearm_drops_strictly_past exNotifierNoSkip [exNotification] 7).2.2 exNotification []
    rfl (by decide) (by decide)

/-- C1: a non-recurring source event of the document contributes its Event to
the result of EventsBetween exactly when the event's start lies strictly
inside the open window, or, with IncludeReminders set, some attached
reminder's remind-at lies strictly inside it; membership in the EventsBetween
result is exactly contribution by some source component. -/
theorem nonRecurring_within_iff (cal : ICSCalendar) (src : SourceEvent)
    (start endT ds de : Int) (opts : EventsOpts)
    (_hmem : src ∈ cal) (hds : src.dtstart = some ds) (hde : src.dtend = some de)
    (hrr : src.rrule = none)
    (hnc : ¬(opts.excludeCancelled = true ∧ src.status = "CANCELLED")) :
    (∀ e : Event, e ∈ EventsBetween cal start endT opts ↔
      ∃ s ∈ cal, e ∈ chooseEvents s start endT opts) ∧
    (createEvent src ds de opts ∈ chooseEvents src start endT opts ↔
      ((start < (createEvent src ds de opts).startsAt ∧
          (createEvent src ds de opts).startsAt < endT) ∨
        (opts.includeReminders = true ∧
          ∃ r ∈ (createEvent src ds de opts).reminders,
            start < r.remindAt ∧ r.remindAt < endT))) := by
  refine ⟨fun e => mem_EventsBetween cal start endT opts e, ?_⟩
  have hcancel := excludeCancelled_guard_false opts src hnc
  simp only [chooseEvents, hcancel, Bool.false_eq_true, if_false, hds, hde, hrr]
  by_cases hW : (createEvent src ds de opts).Within start endT opts.includeReminders = true
  · rw [if_pos hW]
    exact iff_of_true (List.mem_singleton.mpr rfl) ((within_eq_true_iff _ _ _ _).mp hW)
  · rw [if_neg hW]
    exact iff_of_false (List.not_mem_nil _)
      (fun hr => hW ((within_eq_true_iff _ _ _ _).mpr hr))

theorem nonRecurring_within_iff_witness :
    createEvent srcPlain 5 8 optsBase ∈ chooseEvents srcPlain 0 10 optsBase :=
  (nonRecurring_within_iff [srcPlain] srcPlain 0 10 5 8 optsBase (by decide)
      rfl rfl rfl (by decide)).2.mpr (Or.inl (by decide))

/-- C2: for a recurring source event queried with IncludeReminders set, the
contribution to EventsBetween is exactly one Event per occurrence start the
expander enumerates in the window [windowStart, windowEnd + (firstStart -
furthestReminder.remindAt)], inclusive on both ends, each with end = start +
(first occurrence's end - start) and no secondary within filter; membership
in EventsBetween is exactly contribution by some source component. -/
theorem recurring_widened_enumeration (cal : ICSCalendar) (src : SourceEvent)
    (start endT ds de : Int) (opts : EventsOpts) (occ : List Int)
    (_hmem : src ∈ cal) (hds : src.dtstart = some ds) (hde : src.dtend = some de)
    (hrr : src.rrule = some occ) (hinc : opts.includeReminders = true)
    (hnc : ¬(opts.excludeCancelled = true ∧ src.status = "CANCELLED")) :
    (∀ e : Event, e ∈ EventsBetween cal start endT opts ↔
      ∃ s ∈ cal, e ∈ chooseEvents s start endT opts) ∧
    chooseEvents src start endT opts =
      (occ.filter (fun t => decide (start ≤ t) &&
          decide (t ≤ endT + (ds -
            (EarliestReminder (createEvent src ds de opts).reminders).remindAt)))).map
        (fun s => createEvent src s (s + (de - ds)) opts) ∧
    ∀ s : Int, (createEvent src s (s + (de - ds)) opts).endsAt = s + (de - ds) := by
  refine ⟨fun e => mem_EventsBetween cal start endT opts e, ?_, fun s => rfl⟩
  have hcancel := excludeCancelled_guard_false opts src hnc
  simp only [chooseEvents, hcancel, Bool.false_eq_true, if_false, hds, hde, hrr, hinc,
    if_true, rruleBetween, createEvent_startsAt]

theorem recurring_widened_enumeration_witness :
    chooseEvents srcRecurring 0 10 optsBase =
      (([3, 7, 100] : List Int).filter (fun t => decide ((0 : Int) ≤ t) &&
          decide (t ≤ 10 + (5 -
            (EarliestReminder (createEvent srcRecurring 5 8 optsBase).reminders).remindAt)))).map
        (fun s => createEvent srcRecurring s (s + (8 - 5)) optsBase) ∧
    (createEvent srcRecurring 3 (3 + (8 - 5)) optsBase).endsAt = 3 + (8 - 5) :=
  ⟨(recurring_widened_enumeration [srcRecurring] srcRecurring 0 10 5 8 optsBase [3, 7, 100]
      (by decide) rfl rfl rfl rfl (by decide)).2.1,
   (recurring_widened_enumeration [srcRecurring] srcRecurring 0 10 5 8 optsBase [3, 7, 100]
      (by decide) rfl rfl rfl rfl (by decide)).2.2 3⟩

theorem perCalendar_notifs_perm (cal : ICSCalendar) (evs : List Event) :
    List.Perm
      ((((evs.filter (fun ev => !ev.reminders.isEmpty)).map
          (fun ev => ({ event := { ev with reminders := sortByKey (fun r => -r.remindAt) ev.reminders },
                        calendar := cal } : notifyingEvent))).map
        (fun ne => ne.event.reminders.map (fun reminder =>
          ({ calendar := ne.calendar, event := ne.event,
             remindedAt := reminder.remindAt } : Notification)))).flatten)
      ((evs.map (fun ev =>
        ev.reminders.map (fun r =>
          ({ calendar := cal,
             event := { ev with reminders := sortByKey (fun r2 => -r2.remindAt) ev.reminders },
             remindedAt := r.remindAt } : Notification)))).flatten) := by
  induction evs with
  | nil => exact List.Perm.refl _
  | cons ev evs ih =>
    rw [List.filter_cons]
    by_cases h : (!ev.reminders.isEmpty) = true
    · rw [if_pos h]
      simp only [List.map_cons, List.flatten_cons]
      exact List.Perm.append ((sortByKey_perm (fun r => -r.remindAt) ev.reminders).map _) ih
    · rw [if_neg h]
      have hnil : ev.reminders = [] := by
        simpa [List.isEmpty_iff] using h
      simp only [List.map_cons, List.flatten_cons, hnil, List.map_nil, List.nil_append]
      exact ih

theorem notifications_flat_perm (n : Notifier) (start endT : Int) :
    List.Perm (n.notifications start endT)
      ((n.state.calendars.map (fun cal =>
        ((EventsBetween cal start endT n.opts.eventsOpts).map (fun ev =>
          ev.reminders.map (fun r =>
            ({ calendar := cal,
               event := { ev with reminders := sortByKey (fun r2 => -r2.remindAt) ev.reminders },
               remindedAt := r.remindAt } : Notification)))).flatten)).flatten) := by
  rw [Notifier.notifications]
  refine (sortByKey_perm _ _).trans ?_
  rw [Notifier.notifyingEvents]
  refine (((sortByKey_perm _ _).map _).flatten).trans ?_
  induction n.state.calendars with
  | nil => exact List.Perm.refl _
  | cons cal cals ih =>
    simp only [List.map_cons, List.flatten_cons, List.map_append, List.flatten_append]
    exact List.Perm.append (perCalendar_notifs_perm cal _) ih

/-- C4: a full queue recompute on a notifier built by NewNotifier (which
forces IncludeReminders on) queries every tracked calendar over the window,
yields exactly one Notification per Reminder of every returned Event (events
without reminders contribute none), each Notification's remind-at equal to
its originating Reminder's remind-at, and the result is sorted ascending by
remind-at. -/
theorem recompute_one_notification_per_reminder (o : NotifierOpts) (cals : List ICSCalendar)
    (start endT : Int) :
    (notifierTracking o cals).opts.eventsOpts.includeReminders = true ∧
    List.Perm ((notifierTracking o cals).notifications start endT)
      (((notifierTracking o cals).state.calendars.map (fun cal =>
        ((EventsBetween cal start endT (notifierTracking o cals).opts.eventsOpts).map (fun ev =>
          ev.reminders.map (fun r =>
            ({ calendar := cal,
               event := { ev with reminders := sortByKey (fun r2 => -r2.remindAt) ev.reminders },
               remindedAt := r.remindAt } : Notification)))).flatten)).flatten) ∧
    ((notifierTracking o cals).notifications start endT).Pairwise
      (fun a b => a.remindedAt ≤ b.remindedAt) := by
  refine ⟨rfl, notifications_flat_perm (notifierTracking o cals) start endT, ?_⟩
  rw [Notifier.notifications]
  exact sortByKey_sorted _ _

/-- C8 counterexample: the Notifier does NOT leave a queried Event's Reminders
order unchanged: `srcReminded` queried over `(0, 1000)` returns reminders in
ascending order 80, 90, but the notifying event the Notifier derives carries
them re-sorted to 90, 80. -/
theorem notifier_resorts_reminders :
    (exNotifierReminded.notifyingEvents 0 1000).map (fun ne => ne.event.reminders) =
      [[⟨"DISPLAY", 90⟩, ⟨"DISPLAY", 80⟩]] ∧
    (EventsBetween [srcReminded] 0 1000 exNotifierReminded.opts.eventsOpts).map
        (fun ev => ev.reminders) =
      [[⟨"DISPLAY", 80⟩, ⟨"DISPLAY", 90⟩]] := by
  decide

/-- C8 (amended): every notifying event the Notifier derives comes from an
Event returned by a tracked calendar's query with all fields unchanged EXCEPT
the Reminders list, which is re-sorted into descending remind-at order — a
permutation of the original reminders (none added or dropped). -/
theorem notifier_event_frame (n : Notifier) (start endT : Int) (ne : notifyingEvent)
    (hne : ne ∈ n.notifyingEvents start endT) :
    ∃ cal ∈ n.state.calendars,
      ∃ ev ∈ EventsBetween cal start endT n.opts.eventsOpts,
        ne.calendar = cal ∧
        ne.event.startsAt = ev.startsAt ∧ ne.event.endsAt = ev.endsAt ∧
        ne.event.summary = ev.summary ∧ ne.event.location = ev.location ∧
        ne.event.description = ev.description ∧ ne.event.status = ev.status ∧
        ne.event.reminders = sortByKey (fun r => -r.remindAt) ev.reminders ∧
        List.Perm ne.event.reminders ev.reminders ∧
        ne.event.reminders.Pairwise (fun a b => b.remindAt ≤ a.remindAt) := by
  rw [Notifier.notifyingEvents, mem_sortByKey] at hne
  simp only [List.mem_flatten, List.mem_map, List.mem_filter] at hne
  obtain ⟨l, ⟨cal, hcal, rfl⟩, hne⟩ := hne
  simp only [List.mem_map, List.mem_filter] at hne
  obtain ⟨ev, ⟨hev, hkeep⟩, rfl⟩ := hne
  refine ⟨cal, hcal, ev, hev, rfl, rfl, rfl, rfl, rfl, rfl, rfl, rfl,
    sortByKey_perm _ _, ?_⟩
  have hs := sortByKey_sorted (fun r => -r.remindAt) ev.reminders
  exact hs.imp (fun hab => by omega)

theorem notifier_event_frame_witness :
    ∃ cal ∈ exNotifierReminded.state.calendars,
      ∃ ev ∈ EventsBetween cal 0 1000 exNotifierReminded.opts.eventsOpts,
        exNotifyingEvent.calendar = cal ∧
        exNotifyingEvent.event.startsAt = ev.startsAt ∧
        exNotifyingEvent.event.endsAt = ev.endsAt ∧
        exNotifyingEvent.event.summary = ev.summary ∧
        exNotifyingEvent.event.location = ev.location ∧
        exNotifyingEvent.event.description = ev.description ∧
        exNotifyingEvent.event.status = ev.status ∧
        exNotifyingEvent.event.reminders = sortByKey (fun r => -r.remindAt) ev.reminders ∧
        List.Perm exNotifyingEvent.event.reminders ev.reminders ∧
        exNotifyingEvent.event.reminders.Pairwise (fun a b => b.remindAt ≤ a.remindAt) :=
  notifier_event_frame exNotifierReminded 0 1000 exNotifyingEvent (by decide)
